import Mathlib

/-
Verification of gpt-code (gptcode.py, commands.py): a shallow embedding of the
tool functions, the command registry and the REPL loop, with theorems checking
the specification's claims against them.

Conventions of the embedding:
- Python strings handled character-wise (strip/lower/substring/replace) are
  modelled as List Char; strings only concatenated or compared whole stay String.
- External effects (the spawned subprocess, the file system, the Agent Runner)
  enter as explicit arguments carrying their observable outcome.
-/

namespace GPTCode

/-- Result of a completed shell subprocess: exit code and captured
stdout/stderr (the ShellResult of the spec's data model). -/
structure ShellResult where
  returncode : Int
  stdout : String
  stderr : String
deriving DecidableEq

/-- Embeds run_command (gptcode.py lines 15-25): a non-zero exit code renders
the exit-code-and-stderr message, a zero exit code returns stdout verbatim.
The subprocess itself is external; its observable outcome is the argument. -/
def run_command (res : ShellResult) : String :=
  if res.returncode ≠ 0 then
    "Process exited with code " ++ toString res.returncode ++ ".\n" ++ res.stderr
  else
    res.stdout

/-- Python str.strip with no argument: remove leading and trailing whitespace. -/
def pyStrip (s : List Char) : List Char :=
  ((s.dropWhile Char.isWhitespace).reverse.dropWhile Char.isWhitespace).reverse

/-- Python str.lower on the characters involved here (case mapping per char). -/
def pyLower (s : List Char) : List Char :=
  s.map Char.toLower

/-- Embeds run_tool (gptcode.py lines 28-41). The interactive confirmation
answer is the first argument; the Bool of the result records whether a
subprocess was spawned. -/
def run_tool (confirmation : List Char) (res : ShellResult) : String × Bool :=
  if pyLower (pyStrip confirmation) = ['y'] then
    (run_command res, true)
  else
    ("Command execution canceled by user.", false)

/-- Python format spec "{i:6d}": decimal, right-aligned to width 6 with spaces. -/
def fmt6 (i : Nat) : String :=
  let s := toString i
  String.mk (List.replicate (6 - s.length) ' ') ++ s

/-- The numbering loop of read_tool (gptcode.py lines 76-78):
enumerate(lines, start) rendered as "{i:6d}\t{line}". -/
def numberFrom (start : Nat) : List String → List String
  | [] => []
  | l :: rest => (fmt6 start ++ "\t" ++ l) :: numberFrom (start + 1) rest

/-- Embeds read_tool (gptcode.py lines 58-82) on a successfully opened file.
The lines argument is Python f.readlines(): each line keeps its trailing
newline. A positive offset drops that many lines and numbering starts at
offset + 1; otherwise numbering starts at 1 and nothing is dropped. -/
def read_tool (lines : List String) (offset : Int) : String :=
  let start_line : Nat := if offset > 0 then offset.toNat else 0
  let kept : List String := if offset > 0 then lines.drop start_line else lines
  String.join (numberFrom (start_line + 1) kept)

/-- Python substring test (old in content) on lists of characters. -/
def containsSub (old : List Char) : List Char → Bool
  | [] => old.isEmpty
  | c :: rest => old.isPrefixOf (c :: rest) || containsSub old rest

/-- Python content.replace(old, new, 1): replace the leftmost occurrence of
old (for empty old, Python inserts new in front, matching the first branch). -/
def replaceFirst (old new : List Char) : List Char → List Char
  | [] => if old.isEmpty then new else []
  | c :: rest =>
    if old.isPrefixOf (c :: rest) then new ++ (c :: rest).drop old.length
    else c :: replaceFirst old new rest

/-- Number of occurrence positions of old in a list (used to state that a
string occurs exactly once). -/
def countOcc (old : List Char) : List Char → Nat
  | [] => if old.isEmpty then 1 else 0
  | c :: rest => (if old.isPrefixOf (c :: rest) then 1 else 0) + countOcc old rest

/-- Outcome of edit_tool: the returned message, and the content written back
(none when no write occurred). -/
structure EditResult where
  message : String
  written : Option (List Char)
deriving DecidableEq

/-- Embeds edit_tool (gptcode.py lines 104-130) on a successfully read file
content: a missing old_string reports the error and writes nothing; otherwise
the first occurrence is replaced and the result written. -/
def edit_tool (file_path : String) (content old_string new_string : List Char) :
    EditResult :=
  if containsSub old_string content then
    ⟨"Successfully edited " ++ file_path,
      some (replaceFirst old_string new_string content)⟩
  else
    ⟨"Error: The specified text was not found in " ++ file_path, none⟩

/-- A filesystem match as glob_tool sees it: a path and its modification time
(modelled as Nat; only its order matters). -/
structure FileEntry where
  path : String
  mtime : Nat
deriving DecidableEq

/-- The comparison key=os.path.getmtime with reverse=True sorts so that an
entry precedes another when its modification time is at least as large. -/
def mtimeGE (a b : FileEntry) : Bool :=
  decide (b.mtime ≤ a.mtime)

/-- Embeds glob_tool (gptcode.py lines 181-203). The matches argument is the
glob.glob result; matches.sort(key=getmtime, reverse=True) is a stable sort
placing larger modification times first, embedded as a stable merge sort with
relation mtime-greater-or-equal. -/
def glob_tool (pattern path : String) (found : List FileEntry) :
    String ⊕ List FileEntry :=
  let sorted := found.mergeSort mtimeGE
  if sorted.isEmpty then
    Sum.inl ("No files matching pattern \x27" ++ pattern ++ "\x27 found in " ++ path)
  else
    Sum.inr sorted

/-- commands.py Command: name, description and handler; H is the handler type. -/
structure Command (H : Type) where
  name : String
  description : String
  handler : H

/-- Python dict assignment self.commands[name] = cmd on an insertion-ordered
association list: an existing key is overwritten in place, a new key appended. -/
def dictInsert {H : Type} (k : String) (v : Command H) :
    List (String × Command H) → List (String × Command H)
  | [] => [(k, v)]
  | (k₀, v₀) :: rest =>
    if k₀ = k then (k, v) :: rest else (k₀, v₀) :: dictInsert k v rest

/-- Python dict .get(name) lookup on the association list. -/
def dictGet {H : Type} (k : String) :
    List (String × Command H) → Option (Command H)
  | [] => none
  | (k₀, v₀) :: rest => if k₀ = k then some v₀ else dictGet k rest

/-- commands.py CommandSystem: the registry dict. -/
structure CommandSystem (H : Type) where
  commands : List (String × Command H)

/-- A freshly constructed CommandSystem (commands.py lines 20-21). -/
def CommandSystem.empty {H : Type} : CommandSystem H := ⟨[]⟩

/-- CommandSystem.register (commands.py lines 23-30): stores a Command built
from name, description and handler under the name. -/
def CommandSystem.register {H : Type} (sys : CommandSystem H)
    (name description : String) (handler : H) : CommandSystem H :=
  ⟨dictInsert name ⟨name, description, handler⟩ sys.commands⟩

/-- CommandSystem.get_command (commands.py lines 32-34). -/
def CommandSystem.get_command {H : Type} (sys : CommandSystem H) (name : String) :
    Option (Command H) :=
  dictGet name sys.commands

/-- CommandSystem.list_commands (commands.py lines 36-38). -/
def CommandSystem.list_commands {H : Type} (sys : CommandSystem H) :
    List (Command H) :=
  sys.commands.map (fun p => p.2)

/-- One conversation item, shaped like the dict with role and content that
main() appends; items the Runner produces are opaque to the loop. -/
structure InputItem where
  role : String
  content : String
deriving DecidableEq

/-- What a slash-command handler returns in gptcode.py: None (no change), a
new context list, or an int exit code. -/
inductive HandlerResult where
  | noChange
  | newContext (ctx : List InputItem)
  | exitCode (code : Int)
deriving DecidableEq

/-- Handler type of the built-in commands of gptcode.py. -/
def Handler : Type := List InputItem → HandlerResult

/-- cmd_help (gptcode.py lines 210-216): prints the command list, returns None. -/
def cmd_help : Handler := fun _ => HandlerResult.noChange

/-- cmd_clear (gptcode.py lines 219-223): returns the empty context. -/
def cmd_clear : Handler := fun _ => HandlerResult.newContext []

/-- cmd_exit (gptcode.py lines 226-229): returns exit code 0. -/
def cmd_exit : Handler := fun _ => HandlerResult.exitCode 0

/-- The registry built at import time of gptcode.py (lines 206-229): /help,
/clear and /exit, registered in that order. -/
def startupRegistry : CommandSystem Handler :=
  ((CommandSystem.empty.register "/help" "Show this help message" cmd_help).register
      "/clear" "Clear conversation history" cmd_clear).register
    "/exit" "Exit GPT Code" cmd_exit

/-- Python s.startswith(pre): pre is a prefix of the characters of s. -/
def pyStartsWith (s pre : String) : Bool :=
  pre.toList.isPrefixOf s.toList

/-- Python prompt.split()[0] for a prompt beginning with a slash: the first
whitespace-delimited token. -/
def firstToken (s : String) : String :=
  String.mk (s.toList.takeWhile (fun c => !c.isWhitespace))

/-- Outcome of one iteration of the main() REPL loop: either the loop returns
an exit code, or it continues with the (possibly replaced) context. -/
inductive StepResult where
  | terminated (code : Int)
  | next (context : List InputItem)

/-- One iteration of the main() loop (gptcode.py lines 294-328) on one input
line. The runner argument stands for the external Runner.run followed by
result.to_input_list(): it receives the history passed in and yields the
complete updated history, covering any number of tool calls made mid-turn.
A slash input is dispatched to the registry (unknown commands print a notice
and keep the context); any other input is a model turn, after which the
stored context is assigned the runner's returned history. -/
def replStep (cmds : CommandSystem Handler)
    (runner : List InputItem → List InputItem)
    (context : List InputItem) (prompt : String) : StepResult :=
  if pyStartsWith prompt "/" then
    match dictGet (firstToken prompt) cmds.commands with
    | some command =>
      match command.handler context with
      | HandlerResult.exitCode code => StepResult.terminated code
      | HandlerResult.newContext ctx => StepResult.next ctx
      | HandlerResult.noChange => StepResult.next context
    | none => StepResult.next context
  else
    StepResult.next (runner (context ++ [⟨"user", prompt⟩]))

/-! Helper lemmas shared by several claims. -/

/-- A list beginning with old (as a boolean prefix test) contains old. -/
theorem containsSub_of_isPrefixOf (old l : List Char)
    (h : old.isPrefixOf l = true) : containsSub old l = true := by
  cases l with
  | nil =>
    cases old with
    | nil => simp [containsSub]
    | cons o ot => simp [List.isPrefixOf] at h
  | cons c rest => simp [containsSub, h]

/-- Substring containment survives prepending. -/
theorem containsSub_append_left (old p l : List Char)
    (h : containsSub old l = true) : containsSub old (p ++ l) = true := by
  induction p with
  | nil => simpa using h
  | cons c p ih => simp [containsSub, ih]

/-- A list of the shape p ++ old ++ s contains old. -/
theorem containsSub_of_split (old p s : List Char) :
    containsSub old (p ++ old ++ s) = true := by
  rw [List.append_assoc]
  exact containsSub_append_left old p (old ++ s)
    (containsSub_of_isPrefixOf old (old ++ s)
      (List.isPrefixOf_iff_prefix.mpr (List.prefix_append old s)))

/-- Characterization of Python replace(old, new, 1): when old occurs in the
content, the result replaces the leftmost occurrence and keeps everything
before and after it. -/
theorem replaceFirst_spec (old new : List Char) (content : List Char) :
    containsSub old content = true →
    ∃ p s, content = p ++ old ++ s ∧
      replaceFirst old new content = p ++ new ++ s ∧
      ∀ q r, content = q ++ old ++ r → p.length ≤ q.length := by
  induction content with
  | nil =>
    intro h
    have hold : old = [] := by
      simpa [containsSub, List.isEmpty_iff] using h
    subst hold
    exact ⟨[], [], by simp, by simp [replaceFirst], fun q r _ => Nat.zero_le _⟩
  | cons c rest ih =>
    intro h
    by_cases hp : old.isPrefixOf (c :: rest) = true
    · obtain ⟨s, hs⟩ := List.isPrefixOf_iff_prefix.mp hp
      refine ⟨[], s, by simp [hs], ?_, fun q r _ => Nat.zero_le _⟩
      have hdrop : (c :: rest).drop old.length = s := by
        rw [← hs]
        exact List.drop_left old s
      simp [replaceFirst, hp, hdrop]
    · have h' : containsSub old rest = true := by
        have hh := h
        simp [containsSub, hp] at hh
        exact hh
      obtain ⟨p, s, hc, hr, hmin⟩ := ih h'
      refine ⟨c :: p, s, by simp [hc], ?_, ?_⟩
      · simp [replaceFirst, hp, hr]
      · intro q r hqr
        cases q with
        | nil =>
          exfalso
          apply hp
          apply List.isPrefixOf_iff_prefix.mpr
          simp at hqr
          exact ⟨r, hqr.symm⟩
        | cons q₀ q' =>
          have hq : rest = q' ++ old ++ r := by
            simpa using congrArg List.tail hqr
          simpa using Nat.succ_le_succ (hmin q' r hq)

/-- When the leftmost occurrence of old in p ++ old ++ s is the displayed one,
replaceFirst rewrites exactly there. -/
theorem replaceFirst_at (old new p s : List Char)
    (hmin : ∀ q r, p ++ old ++ s = q ++ old ++ r → p.length ≤ q.length) :
    replaceFirst old new (p ++ old ++ s) = p ++ new ++ s := by
  obtain ⟨p', s', hc, hr, hmin'⟩ :=
    replaceFirst_spec old new (p ++ old ++ s) (containsSub_of_split old p s)
  have hlen : p.length = p'.length :=
    Nat.le_antisymm (hmin p' s' hc) (hmin' p s rfl)
  have hc' : p ++ (old ++ s) = p' ++ (old ++ s') := by
    simpa [List.append_assoc] using hc
  obtain ⟨hpp, hss⟩ := List.append_inj hc' hlen
  have hs : s = s' := List.append_cancel_left hss
  rw [hr, ← hpp, ← hs]

/-- Unfolding of dictGet after inserting the same key. -/
theorem dictGet_dictInsert_self {H : Type} (k : String) (v : Command H)
    (l : List (String × Command H)) : dictGet k (dictInsert k v l) = some v := by
  induction l with
  | nil => simp [dictInsert, dictGet]
  | cons p rest ih =>
    obtain ⟨k₀, v₀⟩ := p
    by_cases h : k₀ = k
    · simp [dictInsert, h, dictGet]
    · simp [dictInsert, h, dictGet, ih]

/-- Unfolding of dictGet after inserting a different key. -/
theorem dictGet_dictInsert_ne {H : Type} (k k' : String) (v : Command H)
    (l : List (String × Command H)) (h : k' ≠ k) :
    dictGet k' (dictInsert k v l) = dictGet k' l := by
  induction l with
  | nil => simp [dictInsert, dictGet, Ne.symm h]
  | cons p rest ih =>
    obtain ⟨k₀, v₀⟩ := p
    by_cases h₀ : k₀ = k
    · subst h₀
      simp [dictInsert, dictGet, Ne.symm h]
    · simp [dictInsert, h₀, dictGet, ih]

/-! Claim theorems. -/

/-- C2: any confirmation whose stripped, lower-cased form is not exactly "y"
makes run_tool return the literal cancellation string with no subprocess
spawned; the command is spawned only on an affirmative "y". -/
theorem run_tool_confirmation_gate (confirmation : List Char) (res : ShellResult) :
    (pyLower (pyStrip confirmation) ≠ ['y'] →
      run_tool confirmation res = ("Command execution canceled by user.", false)) ∧
    ((run_tool confirmation res).2 = true → pyLower (pyStrip confirmation) = ['y']) ∧
    (pyLower (pyStrip confirmation) = ['y'] →
      run_tool confirmation res = (run_command res, true)) := by
  unfold run_tool
  by_cases h : pyLower (pyStrip confirmation) = ['y'] <;> simp [h]

/-- C2 witness: the concrete confirmation " N" (stripping to "n") cancels. -/
theorem run_tool_confirmation_gate_witness :
    pyLower (pyStrip [' ', 'N']) ≠ ['y'] ∧
    run_tool [' ', 'N'] ⟨0, "out", "err"⟩ =
      ("Command execution canceled by user.", false) :=
  ⟨by decide, (run_tool_confirmation_gate [' ', 'N'] ⟨0, "out", "err"⟩).1 (by decide)⟩

/-- C8: run_command returns stdout verbatim on exit code 0, and the string
"Process exited with code <code>.\n<stderr>" on a non-zero exit code, as a
normal result value in both cases. -/
theorem run_command_exit_code (res : ShellResult) :
    (res.returncode = 0 → run_command res = res.stdout) ∧
    (res.returncode ≠ 0 →
      run_command res =
        "Process exited with code " ++ toString res.returncode ++ ".\n" ++ res.stderr) := by
  unfold run_command
  by_cases h : res.returncode = 0 <;> simp [h]

/-- C8 witness: exit code 2 yields the rendered message, not stdout. -/
theorem run_command_exit_code_witness :
    run_command ⟨2, "out", "err"⟩ =
      "Process exited with code " ++ toString (2 : Int) ++ ".\n" ++ "err" :=
  (run_command_exit_code ⟨2, "out", "err"⟩).2 (by decide)

/-- C3: when old_string occurs in the content, edit_tool reports success and
writes the content with exactly the leftmost occurrence replaced: the prefix
before it and the suffix after it — hence every other occurrence — unchanged. -/
theorem edit_tool_first_occurrence (path : String)
    (content old_string new_string : List Char)
    (h : containsSub old_string content = true) :
    ∃ p s, content = p ++ old_string ++ s ∧
      edit_tool path content old_string new_string =
        ⟨"Successfully edited " ++ path, some (p ++ new_string ++ s)⟩ ∧
      ∀ q r, content = q ++ old_string ++ r → p.length ≤ q.length := by
  obtain ⟨p, s, hc, hr, hmin⟩ := replaceFirst_spec old_string new_string content h
  exact ⟨p, s, hc, by simp [edit_tool, h, hr], hmin⟩

/-- C3 witness: the spec's example — content "xyx", edit "x" to "z" writes
"zyx", replacing only the first occurrence. -/
theorem edit_tool_first_occurrence_witness :
    containsSub ['x'] ['x', 'y', 'x'] = true ∧
    (edit_tool "f.txt" ['x', 'y', 'x'] ['x'] ['z']).written = some ['z', 'y', 'x'] ∧
    ∃ p s, (['x', 'y', 'x'] : List Char) = p ++ ['x'] ++ s ∧
      edit_tool "f.txt" ['x', 'y', 'x'] ['x'] ['z'] =
        ⟨"Successfully edited " ++ "f.txt", some (p ++ ['z'] ++ s)⟩ ∧
      ∀ q r, (['x', 'y', 'x'] : List Char) = q ++ ['x'] ++ r → p.length ≤ q.length :=
  ⟨by decide, by decide,
    edit_tool_first_occurrence "f.txt" ['x', 'y', 'x'] ['x'] ['z'] (by decide)⟩

/-- C4: when old_string does not occur in the content, edit_tool returns the
error string naming the path and performs no write. -/
theorem edit_tool_miss (path : String) (content old_string new_string : List Char)
    (h : containsSub old_string content = false) :
    edit_tool path content old_string new_string =
      ⟨"Error: The specified text was not found in " ++ path, none⟩ := by
  unfold edit_tool
  simp [h]

/-- C4 witness: editing "a" looking for the absent "b" reports the error and
writes nothing. -/
theorem edit_tool_miss_witness :
    containsSub ['b'] ['a'] = false ∧
    edit_tool "f.txt" ['a'] ['b'] ['z'] =
      ⟨"Error: The specified text was not found in " ++ "f.txt", none⟩ :=
  ⟨by decide, edit_tool_miss "f.txt" ['a'] ['b'] ['z'] (by decide)⟩

/-- C5 counterexample: on content "ba" with A = "a", B = "b" — distinct and
each occurring exactly once — edit(A, B) writes "bb" and the following
edit(B, A) writes "ab", not the original "ba": the round trip fails because
the second edit targets the earlier, pre-existing occurrence of B. -/
theorem edit_tool_roundtrip_counterexample :
    (['a'] : List Char) ≠ ['b'] ∧
    countOcc ['a'] ['b', 'a'] = 1 ∧
    countOcc ['b'] ['b', 'a'] = 1 ∧
    (edit_tool "f.txt" ['b', 'a'] ['a'] ['b']).written = some ['b', 'b'] ∧
    (edit_tool "f.txt" ['b', 'b'] ['b'] ['a']).written = some ['a', 'b'] ∧
    some (['a', 'b'] : List Char) ≠ some ['b', 'a'] := by
  decide

/-- C5 (amended): edit(A, B) followed by edit(B, A) restores the original
content provided the occurrence of A being rewritten is the leftmost
occurrence of A, and the inserted B becomes the leftmost occurrence of B in
the edited content; occurring exactly once is not sufficient. -/
theorem edit_tool_roundtrip (path : String) (A B p s : List Char)
    (_hAB : A ≠ B)
    (hminA : ∀ q r, p ++ A ++ s = q ++ A ++ r → p.length ≤ q.length)
    (hminB : ∀ q r, p ++ B ++ s = q ++ B ++ r → p.length ≤ q.length) :
    (edit_tool path (p ++ A ++ s) A B).written = some (p ++ B ++ s) ∧
    (edit_tool path (p ++ B ++ s) B A).written = some (p ++ A ++ s) := by
  constructor
  · unfold edit_tool
    rw [if_pos (containsSub_of_split A p s), replaceFirst_at A B p s hminA]
  · unfold edit_tool
    rw [if_pos (containsSub_of_split B p s), replaceFirst_at B A p s hminB]

/-- C5 witness: content "ac", A = "a", B = "b" at the very front — both
minimality conditions hold and the round trip restores "ac". -/
theorem edit_tool_roundtrip_witness :
    (edit_tool "f.txt" ['a', 'c'] ['a'] ['b']).written = some ['b', 'c'] ∧
    (edit_tool "f.txt" ['b', 'c'] ['b'] ['a']).written = some ['a', 'c'] := by
  have h := edit_tool_roundtrip "f.txt" ['a'] ['b'] [] ['c'] (by decide)
    (fun q r _ => Nat.zero_le _) (fun q r _ => Nat.zero_le _)
  simpa using h

/-- C6: the read tool of the code takes no limit argument, so a 3-line file
read with offset 1 renders both remaining lines — numbered 2 and 3, each with
a 6-digit right-aligned number, a tab and the original line — rather than the
single line the claimed limit of 1 would leave. -/
theorem read_tool_offset_no_limit :
    read_tool ["a\n", "b\n", "c\n"] 1 = "     2\tb\n     3\tc\n" ∧
    read_tool ["a\n", "b\n", "c\n"] 1 ≠ "     2\tb\n" := by
  constructor <;> decide

/-- C7 counterexample: the startup registry answers no Command for "/quit". -/
theorem quit_not_registered :
    CommandSystem.get_command startupRegistry "/quit" = none := by
  rfl

/-- C7 (amended): the built-in commands registered at startup are exactly
/help, /clear and /exit — there is no /quit; the /exit handler returns exit
code 0 and one REPL iteration on input "/exit" terminates the loop with 0. -/
theorem builtin_commands_exit :
    startupRegistry.commands.map (fun p => p.1) = ["/help", "/clear", "/exit"] ∧
    (∃ c, CommandSystem.get_command startupRegistry "/exit" = some c ∧
      ∀ ctx, c.handler ctx = HandlerResult.exitCode 0) ∧
    ∀ runner context, replStep startupRegistry runner context "/exit" =
      StepResult.terminated 0 := by
  refine ⟨by rfl, ⟨⟨"/exit", "Exit GPT Code", cmd_exit⟩, by rfl, fun ctx => rfl⟩, ?_⟩
  intro runner context
  rfl

/-- C1: on an input line not starting with "/", the REPL iteration replaces
the stored context wholesale with the history the runner returns for the
prior context extended by the user message — no second append of the user
message — so for every prior context and every runner behavior (hence any
number of mid-turn tool calls) the new context has exactly the length of the
returned history. -/
theorem context_wholesale_replacement (cmds : CommandSystem Handler)
    (runner : List InputItem → List InputItem)
    (context : List InputItem) (prompt : String)
    (h : pyStartsWith prompt "/" = false) :
    replStep cmds runner context prompt =
      StepResult.next (runner (context ++ [⟨"user", prompt⟩])) ∧
    ∀ ctx, replStep cmds runner context prompt = StepResult.next ctx →
      ctx.length = (runner (context ++ [⟨"user", prompt⟩])).length := by
  have h1 : replStep cmds runner context prompt =
      StepResult.next (runner (context ++ [⟨"user", prompt⟩])) := by
    unfold replStep
    simp [h]
  refine ⟨h1, ?_⟩
  intro ctx hctx
  rw [h1] at hctx
  injection hctx with h2
  rw [h2]

/-- C1 witness: a concrete turn on prompt "hello" from the empty context with
a runner that appends a tool item and an answer item: the stored context is
exactly the runner's returned 3-item history. -/
theorem context_wholesale_replacement_witness :
    pyStartsWith "hello" "/" = false ∧
    replStep startupRegistry
      (fun hist => hist ++ [⟨"tool", "t"⟩, ⟨"assistant", "a"⟩]) [] "hello" =
      StepResult.next [⟨"user", "hello"⟩, ⟨"tool", "t"⟩, ⟨"assistant", "a"⟩] :=
  ⟨by decide, by
    have h := (context_wholesale_replacement startupRegistry
      (fun hist => hist ++ [⟨"tool", "t"⟩, ⟨"assistant", "a"⟩]) [] "hello"
      (by decide)).1
    simpa using h⟩

/-- C10: registering a second Command under an already-registered name
silently overwrites the first: get_command returns the most recently
registered Command, and a handler registered nowhere else is no longer
reachable through the registry under any name. -/
theorem register_overwrites {H : Type} (sys : CommandSystem H)
    (name d₁ d₂ : String) (h₁ h₂ : H) (hne : h₁ ≠ h₂)
    (hfresh : ∀ k c, sys.get_command k = some c → c.handler ≠ h₁) :
    ((sys.register name d₁ h₁).register name d₂ h₂).get_command name =
      some ⟨name, d₂, h₂⟩ ∧
    ∀ k c, ((sys.register name d₁ h₁).register name d₂ h₂).get_command k = some c →
      c.handler ≠ h₁ := by
  constructor
  · exact dictGet_dictInsert_self name ⟨name, d₂, h₂⟩ _
  · intro k c hk
    by_cases hkn : k = name
    · subst hkn
      rw [show ((sys.register k d₁ h₁).register k d₂ h₂).get_command k =
          some ⟨k, d₂, h₂⟩ from dictGet_dictInsert_self k ⟨k, d₂, h₂⟩ _] at hk
      injection hk with hc
      rw [← hc]
      exact fun hh => hne hh.symm
    · have hkk : ((sys.register name d₁ h₁).register name d₂ h₂).get_command k =
          sys.get_command k := by
        show dictGet k (dictInsert name _ (dictInsert name _ sys.commands)) = _
        rw [dictGet_dictInsert_ne name k _ _ hkn, dictGet_dictInsert_ne name k _ _ hkn]
        rfl
      rw [hkk] at hk
      exact hfresh k c hk

/-- C10 witness: registering /foo twice (handlers 1 then 2, as Nat tags) in
an empty registry: lookup returns the second Command. -/
theorem register_overwrites_witness :
    ((CommandSystem.empty.register "/foo" "one" (1 : Nat)).register
      "/foo" "two" 2).get_command "/foo" = some ⟨"/foo", "two", 2⟩ :=
  (register_overwrites CommandSystem.empty "/foo" "one" "two" 1 2 (by decide)
    (by
      intro k c hk
      simp [CommandSystem.get_command, CommandSystem.empty, dictGet] at hk)).1

/-- C9: when at least one file matches and the matches carry pairwise-distinct
modification times, glob_tool returns the matches as a sequence ordered by
modification time strictly descending (most recently modified first). -/
theorem glob_tool_mtime_descending (pattern path : String)
    (found : List FileEntry) (hne : found ≠ [])
    (hdist : (found.map FileEntry.mtime).Nodup) :
    ∃ l, glob_tool pattern path found = Sum.inr l ∧ l.Perm found ∧
      l.Chain' (fun a b => b.mtime < a.mtime) := by
  have hperm : (found.mergeSort mtimeGE).Perm found :=
    List.mergeSort_perm found mtimeGE
  have hsorted : (found.mergeSort mtimeGE).Pairwise
      (fun a b => b.mtime ≤ a.mtime) := by
    have htrans : ∀ a b c : FileEntry,
        mtimeGE a b → mtimeGE b c → mtimeGE a c := by
      intro a b c hab hbc
      simp only [mtimeGE, decide_eq_true_eq] at hab hbc ⊢
      exact Nat.le_trans hbc hab
    have htotal : ∀ a b : FileEntry, mtimeGE a b || mtimeGE b a := by
      intro a b
      simp only [mtimeGE, Bool.or_eq_true, decide_eq_true_eq]
      exact Nat.le_total b.mtime a.mtime
    have hp := @List.sorted_mergeSort FileEntry mtimeGE htrans htotal found
    exact hp.imp (fun h => by simpa [mtimeGE] using h)
  have hnodup : ((found.mergeSort mtimeGE).map FileEntry.mtime).Nodup :=
    ((hperm.map FileEntry.mtime).nodup_iff).mpr hdist
  have hpne : (found.mergeSort mtimeGE).Pairwise
      (fun a b => a.mtime ≠ b.mtime) :=
    List.pairwise_map.mp hnodup
  have hstrict : (found.mergeSort mtimeGE).Pairwise
      (fun a b => b.mtime < a.mtime) :=
    (hsorted.and hpne).imp (fun h => Nat.lt_of_le_of_ne h.1 (fun e => h.2 e.symm))
  have hne' : (found.mergeSort mtimeGE) ≠ [] := by
    intro hnil
    rw [hnil] at hperm
    exact hne hperm.symm.eq_nil
  refine ⟨found.mergeSort mtimeGE, ?_, hperm, hstrict.chain'⟩
  simp only [glob_tool]
  rw [if_neg (fun hh => hne' (List.isEmpty_iff.mp hh))]

/-- C9 witness: two matches with modification times 1 and 5 come back with
time 5 first. -/
theorem glob_tool_mtime_descending_witness :
    (∃ l, glob_tool "*.py" "." [⟨"old", 1⟩, ⟨"new", 5⟩] = Sum.inr l ∧
      l.Perm [⟨"old", 1⟩, ⟨"new", 5⟩] ∧
      l.Chain' (fun a b => b.mtime < a.mtime)) ∧
    glob_tool "*.py" "." [⟨"old", 1⟩, ⟨"new", 5⟩] =
      Sum.inr [⟨"new", 5⟩, ⟨"old", 1⟩] :=
  ⟨glob_tool_mtime_descending "*.py" "." [⟨"old", 1⟩, ⟨"new", 5⟩]
    (by decide) (by decide),
    by simp [glob_tool, List.mergeSort, List.splitInTwo, List.merge, mtimeGE]⟩

end GPTCode
